import Mathlib

/-!
Verification development for the SEGMENTATION_DEMO repository
(VTI quad-view and contour annotation tool).

The definitions below are a shallow embedding of the Python source:
geometric coordinates are rationals, VTK actors are identified by
natural-number ids, renderers are lists of actor ids (vtkRenderer's
prop collection appends on AddActor and removes the first occurrence
on RemoveActor), and the per-slice contour dictionary is an
association list keyed the way a Python dict is.
-/

namespace SegDemo

/-- A 3D world point (models a VTK world-coordinate triple). -/
structure Point3 where
  x : ℚ
  y : ℚ
  z : ℚ
deriving DecidableEq, Repr

/-- A triple of rational components (models a VTK 3-vector such as
origin or spacing of a vtkImageData). -/
structure Vec3 where
  c0 : ℚ
  c1 : ℚ
  c2 : ℚ
deriving DecidableEq, Repr

/-- Component access for a rational 3-vector. -/
def Vec3.get (v : Vec3) : Fin 3 → ℚ
  | 0 => v.c0
  | 1 => v.c1
  | 2 => v.c2

/-- A triple of integer components (models one side of a VTK extent). -/
structure IVec3 where
  c0 : ℤ
  c1 : ℤ
  c2 : ℤ
deriving DecidableEq, Repr

/-- Component access for an integer 3-vector. -/
def IVec3.get (v : IVec3) : Fin 3 → ℤ
  | 0 => v.c0
  | 1 => v.c1
  | 2 => v.c2

/-- The geometric addressing of a loaded volume: origin, spacing and
voxel extent per axis, as read from the vtkImageData of main.py. -/
structure ImageData where
  origin : Vec3
  spacing : Vec3
  extLo : IVec3
  extHi : IVec3
deriving DecidableEq, Repr

/-- World coordinate of slice index i on axis a:
origin[a] + i * spacing[a] (main.py lines 40, 162, 172, 182, 572-574, 663). -/
def worldCoord (img : ImageData) (a : Fin 3) (i : ℤ) : ℚ :=
  img.origin.get a + (i : ℚ) * img.spacing.get a

/-- Modelled from the spec: vtkImageData.GetCenter of the external VTK
collaborator (called by main.py's set_slice); the center of the volume
bounds, origin[a] + spacing[a] * (extLo[a] + extHi[a]) / 2 per axis. -/
def centerCoord (img : ImageData) (a : Fin 3) : ℚ :=
  img.origin.get a + img.spacing.get a * (((img.extLo.get a : ℚ) + (img.extHi.get a : ℚ)) / 2)

/-- The three orthogonal view axes of the tool
(Sagittal = x, Coronal = y, Axial = z). -/
inductive Axis
  | x
  | y
  | z
deriving DecidableEq, Repr

/-- The volume axis index addressed by a view axis. -/
def axisIdx : Axis → Fin 3
  | Axis.x => 0
  | Axis.y => 1
  | Axis.z => 2

/-- A 4x4 reslice-axes matrix (models vtkMatrix4x4). -/
def Mat4 : Type := Fin 4 → Fin 4 → ℚ

/-- One row of a 4x4 matrix given its four entries. -/
def rowOf (a b c d : ℚ) : Fin 4 → ℚ := fun j =>
  if j = 0 then a else if j = 1 then b else if j = 2 then c else d

/-- A 4x4 matrix from its four rows (models vtkMatrix4x4.DeepCopy of a
row-major 16-tuple). -/
def mat4Of (r0 r1 r2 r3 : Fin 4 → ℚ) : Mat4 := fun i =>
  if i = 0 then r0 else if i = 1 then r1 else if i = 2 then r2 else r3

/-- vtkMatrix4x4.SetElement: overwrite the entry at row r, column c. -/
def setElem (m : Mat4) (r c : Fin 4) (v : ℚ) : Mat4 :=
  fun i j => if i = r ∧ j = c then v else m i j

/-- The reslice-axes matrix built by ImageSliceViewerWidget.set_slice
(main.py lines 145-187) for a view axis and slice index: a fixed
basis-permutation matrix per axis, with the translation column set to
the volume center on the two in-plane axes and to the slice's world
coordinate on the out-of-plane axis. -/
def resliceAxes (img : ImageData) : Axis → ℤ → Mat4
  | Axis.x, sliceIndex =>
    let base := mat4Of (rowOf 0 1 0 0) (rowOf 0 0 1 0) (rowOf 1 0 0 0) (rowOf 0 0 0 1)
    let slicePos := img.origin.get 0 + (sliceIndex : ℚ) * img.spacing.get 0
    setElem (setElem (setElem base 0 3 slicePos) 1 3 (centerCoord img 1)) 2 3 (centerCoord img 2)
  | Axis.y, sliceIndex =>
    let base := mat4Of (rowOf 1 0 0 0) (rowOf 0 0 1 0) (rowOf 0 1 0 0) (rowOf 0 0 0 1)
    let slicePos := img.origin.get 1 + (sliceIndex : ℚ) * img.spacing.get 1
    setElem (setElem (setElem base 0 3 (centerCoord img 0)) 1 3 slicePos) 2 3 (centerCoord img 2)
  | Axis.z, sliceIndex =>
    let base := mat4Of (rowOf 1 0 0 0) (rowOf 0 1 0 0) (rowOf 0 0 1 0) (rowOf 0 0 0 1)
    let slicePos := img.origin.get 2 + (sliceIndex : ℚ) * img.spacing.get 2
    setElem (setElem (setElem base 0 3 (centerCoord img 0)) 1 3 (centerCoord img 1)) 2 3 slicePos

/-- ImageSliceViewerWidget.set_slice: returns early (no matrix) when no
volume has been set as reslice input, otherwise produces the
reslice-axes matrix for the widget's view axis and the slice index. -/
def set_slice (input : Option ImageData) (viewAxis : Axis) (sliceIndex : ℤ) : Option Mat4 :=
  match input with
  | none => none
  | some img => some (resliceAxes img viewAxis sliceIndex)

/-- The matrix row holding the out-of-plane translation for a view axis
(the row whose SetElement call receives slice_pos in set_slice). -/
def outRow : Axis → Fin 4
  | Axis.x => 0
  | Axis.y => 1
  | Axis.z => 2

/-- The volume-axis index corresponding to one of the first three rows
of the reslice matrix's translation column. -/
def fin3of (r : Fin 4) : Fin 3 :=
  if h : (r : ℕ) < 3 then ⟨r, h⟩ else 0

/-- Linear interpolation between two points. -/
def lerp (p q : Point3) (t : ℚ) : Point3 :=
  ⟨p.x + t * (q.x - p.x), p.y + t * (q.y - p.y), p.z + t * (q.z - p.z)⟩

/-- Modelled from the spec: one evaluation of the smooth interpolating
curve built by the external VTK collaborator (vtkParametricSpline, not
part of this repository) through a list of control points, at a curve
parameter u in [0, 1].  The spec only requires an interpolating curve
whose parameter 0 and 1 ends coincide with the first and last control
points; it is modelled here as the piecewise-linear interpolant over
uniformly spaced knots.  evalSeg evaluates within the segment selected
by the scaled parameter srr (the parameter times the knot count). -/
def evalSeg (l : List Point3) (srr : ℚ) : Point3 :=
  let k := min (Int.toNat ⌊srr⌋) (l.length - 2)
  lerp (l.getD k ⟨0, 0, 0⟩) (l.getD (k + 1) ⟨0, 0, 0⟩) (srr - (k : ℚ))

/-- Modelled from the spec: the interpolating-curve evaluation at
parameter u, via evalSeg on the scaled parameter. -/
def splineEval (ctrl : List Point3) (u : ℚ) : Point3 :=
  match ctrl with
  | [] => ⟨0, 0, 0⟩
  | [p] => p
  | p :: q :: rest =>
    evalSeg (p :: q :: rest) (u * (((p :: q :: rest).length : ℚ) - 1))

/-- Modelled from the spec: the external VTK tessellation collaborator
(vtkParametricFunctionSource with SetUResolution res, not part of this
repository), which emits res + 1 curve samples at uniform parameter
values from 0 to 1. -/
def tessellate (res : ℕ) (ctrl : List Point3) : List Point3 :=
  (List.range (res + 1)).map (fun (i : ℕ) => splineEval ctrl ((i : ℚ) / (res : ℚ)))

/-- The control-point list that add_contour_point feeds to the spline
for one curve (main.py lines 672-679 and 716-723): every stored point
with its z replaced by the given plane coordinate, followed by a repeat
of the first point to close the loop. -/
def ctrlPoints (pts : List Point3) (z : ℚ) : List Point3 :=
  pts.map (fun p => (⟨p.x, p.y, z⟩ : Point3)) ++
    (match pts.head? with
     | some p0 => [(⟨p0.x, p0.y, z⟩ : Point3)]
     | none => [])

/-- One finalized contour as stored in axial_contours_per_slice
(main.py lines 642-647): the raw picked points, the 2D and 3D curve
actors and the marker-cube actors (id and center). -/
structure ContourInfo where
  points : List Point3
  actor2d : Option ℕ
  actor3d : Option ℕ
  cube_actors : List (ℕ × Point3)
deriving DecidableEq, Repr

/-- The per-slice contour dictionary, as an association list from the
axial slice index (None before any update_slices has run) to the list
of finalized contours on that slice. -/
abbrev Store : Type := List (Option ℤ × List ContourInfo)

/-- Python dict.get(key, []) on the per-slice contour dictionary. -/
def storeGet : Store → Option ℤ → List ContourInfo
  | [], _ => []
  | e :: rest, k => if e.1 = k then e.2 else storeGet rest k

/-- Python `key in dict` on the per-slice contour dictionary. -/
def storeHasKey : Store → Option ℤ → Bool
  | [], _ => false
  | e :: rest, k => if e.1 = k then true else storeHasKey rest k

/-- The store mutation of toggle_drawing's finish branch (main.py lines
640-647): create an empty list for the key if absent, then append the
new contour record to the list under the key. -/
def storeAppend (st : Store) (k : Option ℤ) (c : ContourInfo) : Store :=
  if storeHasKey st k then
    st.map (fun e => if e.1 = k then (e.1, e.2 ++ [c]) else e)
  else
    st ++ [(k, [c])]

/-- vtkRenderer.RemoveActor for an optional actor handle, guarded the
way main.py guards it (only removed when the handle is non-None);
removal deletes the first matching entry of the prop list. -/
def removeActorOpt (ren : List ℕ) (a : Option ℕ) : List ℕ :=
  match a with
  | none => ren
  | some x => ren.erase x

/-- Erase each id of the second list, in order, from the first. -/
def eraseAll : List ℕ → List ℕ → List ℕ
  | ren, [] => ren
  | ren, a :: rest => eraseAll (ren.erase a) rest

/-- The loop of update_slices that removes a contour's marker cubes
from the 2D renderer (main.py lines 551-552). -/
def removeCubes : List ℕ → List (ℕ × Point3) → List ℕ
  | ren, [] => ren
  | ren, cb :: rest => removeCubes (ren.erase cb.1) rest

/-- Removal of one stored contour's 2D visuals from the 2D renderer
(main.py lines 548-552): its curve actor, then its marker cubes. -/
def removeContour (ren : List ℕ) (ci : ContourInfo) : List ℕ :=
  removeCubes (removeActorOpt ren ci.actor2d) ci.cube_actors

/-- The loop of update_slices over all contours of the previous slice
(main.py lines 547-552). -/
def removeContours : List ℕ → List ContourInfo → List ℕ
  | ren, [] => ren
  | ren, ci :: rest => removeContours (removeContour ren ci) rest

/-- The loop of update_slices that adds a contour's marker cubes to the
2D renderer (main.py lines 565-566). -/
def addCubes : List ℕ → List (ℕ × Point3) → List ℕ
  | ren, [] => ren
  | ren, cb :: rest => addCubes (ren ++ [cb.1]) rest

/-- Addition of one stored contour's 2D visuals to the 2D renderer
(main.py lines 562-566): its curve actor, then its marker cubes. -/
def addContour (ren : List ℕ) (ci : ContourInfo) : List ℕ :=
  addCubes
    (match ci.actor2d with
     | some a => ren ++ [a]
     | none => ren)
    ci.cube_actors

/-- The loop of update_slices over all contours of the new slice
(main.py lines 561-566). -/
def addContours : List ℕ → List ContourInfo → List ℕ
  | ren, [] => ren
  | ren, ci :: rest => addContours (addContour ren ci) rest

/-- All 2D actor ids belonging to one stored contour: its curve actor
(when present) and its marker-cube actors. -/
def contourActors (ci : ContourInfo) : List ℕ :=
  (match ci.actor2d with
   | some a => [a]
   | none => []) ++ ci.cube_actors.map Prod.fst

/-- All 2D actor ids of a list of stored contours. -/
def allActors : List ContourInfo → List ℕ
  | [] => []
  | ci :: rest => contourActors ci ++ allActors rest

/-- All 2D actor ids stored under one slice key. -/
def sliceActors (st : Store) (k : Option ℤ) : List ℕ :=
  allActors (storeGet st k)

/-- The VTIViewer state of main.py restricted to the annotation engine:
the loaded volume, the drawing flag, the three slice sliders, the
in-progress contour session, the per-slice contour store, and the
actor id lists of the axial 2D renderer and the 3D renderer.  Actor
objects are modelled by ids allocated from nextActorId. -/
structure ViewerState where
  image_data : Option ImageData
  is_drawing : Bool
  slider_axial : ℤ
  slider_coronal : ℤ
  slider_sagittal : ℤ
  current_contour_points : Option (List Point3)
  current_contour_actor_2d : Option ℕ
  current_contour_actor_3d : Option ℕ
  current_contour_cubes : List (ℕ × Point3)
  axial_contours_per_slice : Store
  current_axial_slice : Option ℤ
  renderer2d_axial : List ℕ
  renderer_3d : List ℕ
  polydata_2d : List Point3
  polydata_3d : List Point3
  contour_point_actors_2d : List ℕ
  nextActorId : ℕ
deriving DecidableEq

/-- The spacing used by add_contour_point (main.py line 660):
the volume spacing, or (1, 1, 1) when no volume is loaded. -/
def spacingOf (s : ViewerState) : Vec3 :=
  match s.image_data with
  | some img => img.spacing
  | none => ⟨1, 1, 1⟩

/-- The origin used by add_contour_point (main.py line 661):
the volume origin, or (0, 0, 0) when no volume is loaded. -/
def originOf (s : ViewerState) : Vec3 :=
  match s.image_data with
  | some img => img.origin
  | none => ⟨0, 0, 0⟩

/-- slice_z of add_contour_point (main.py lines 662-663): the physical
z coordinate of the axial slice currently selected by the slider. -/
def axialSliceZ (s : ViewerState) : ℚ :=
  (originOf s).get 2 + (s.slider_axial : ℚ) * (spacingOf s).get 2

/-- contour_z_2d of add_contour_point (main.py line 664): slice_z plus
the constant depth bias spacing[2] * 20 used only for the 2D view. -/
def axialContourZ2d (s : ViewerState) : ℚ :=
  axialSliceZ s + (spacingOf s).get 2 * 20

/-- The body of VTIViewer.add_contour_point in main.py (lines 660-742)
once the drawing guard has passed, with pts being the current session
points.  The raw picked point is stored unmodified; the 2D curve is
regenerated from the stored points at the biased plane z, the 3D curve
at the exact physical slice z; a marker cube centered at the biased
position is created and added to the 2D renderer. -/
def addPointCore (s : ViewerState) (pts : List Point3) (pos : Point3) : ViewerState :=
  let slice_z := axialSliceZ s
  let z2d := axialContourZ2d s
  let pts' := pts ++ [pos]
  let n := pts'.length
  let poly2d :=
    if 2 ≤ n then tessellate 200 (ctrlPoints pts' z2d)
    else
      match pts'.head? with
      | some p0 => [(⟨p0.x, p0.y, z2d⟩ : Point3)]
      | none => []
  let poly3d :=
    if 2 ≤ n then tessellate 200 (ctrlPoints pts' slice_z)
    else
      match pts'.head? with
      | some p0 => [(⟨p0.x, p0.y, slice_z⟩ : Point3)]
      | none => []
  { s with
    current_contour_points := some pts'
    polydata_2d := poly2d
    polydata_3d := poly3d
    current_contour_cubes :=
      s.current_contour_cubes ++ [(s.nextActorId, (⟨pos.x, pos.y, z2d⟩ : Point3))]
    renderer2d_axial := s.renderer2d_axial ++ [s.nextActorId]
    nextActorId := s.nextActorId + 1 }

/-- VTIViewer.add_contour_point of main.py (lines 656-742): a no-op
unless drawing mode is active and a session point buffer exists. -/
def add_contour_point (pos : Point3) (s : ViewerState) : ViewerState :=
  match s.is_drawing, s.current_contour_points with
  | true, some pts => addPointCore s pts pos
  | _, _ => s

/-- The world point that ContourInteractorStyle.on_left_button_press
(main.py lines 27-43) passes to add_contour_point: the approximate
picked point with its z overwritten by the physical coordinate of the
current axial slice whenever a volume is loaded. -/
def pickedPoint (s : ViewerState) (w : Point3) : Point3 :=
  match s.image_data with
  | some img =>
    ⟨w.x, w.y, img.origin.get 2 + (s.slider_axial : ℚ) * img.spacing.get 2⟩
  | none => w

/-- ContourInteractorStyle.on_left_button_press (main.py lines 22-44):
when drawing is inactive the pick falls through to camera interaction;
otherwise the corrected picked point is added to the session. -/
def on_left_button_press (s : ViewerState) (w : Point3) : ViewerState :=
  if s.is_drawing then add_contour_point (pickedPoint s w) s else s

/-- VTIViewer.toggle_drawing of main.py (lines 592-651).  Starting a
session allocates an empty point buffer, empty curve buffers, no
marker cubes, and fresh 2D and 3D curve actors added to their
renderers.  Finishing appends a contour record to the store under the
current axial slice when at least one point was accumulated, then
resets the session fields. -/
def toggle_drawing (checked : Bool) (s : ViewerState) : ViewerState :=
  if checked then
    { s with
      is_drawing := true
      current_contour_points := some []
      current_contour_cubes := []
      polydata_2d := []
      polydata_3d := []
      current_contour_actor_2d := some s.nextActorId
      current_contour_actor_3d := some (s.nextActorId + 1)
      renderer2d_axial := s.renderer2d_axial ++ [s.nextActorId]
      renderer_3d := s.renderer_3d ++ [s.nextActorId + 1]
      nextActorId := s.nextActorId + 2 }
  else
    let s' :=
      match s.current_contour_points with
      | some pts =>
        if 0 < pts.length then
          { s with
            axial_contours_per_slice :=
              storeAppend s.axial_contours_per_slice s.current_axial_slice
                ⟨pts, s.current_contour_actor_2d, s.current_contour_actor_3d,
                 s.current_contour_cubes⟩ }
        else s
      | none => s
    { s' with
      is_drawing := false
      current_contour_points := none
      current_contour_actor_2d := none
      current_contour_actor_3d := none
      current_contour_cubes := [] }

/-- VTIViewer.update_slices of main.py (lines 535-587): a no-op
without a volume; otherwise records the new current axial slice, hides
in the 2D renderer the curve actor and marker cubes of every contour
stored under the previous axial slice, shows those of every contour
stored under the new one, and touches no actor of the 3D renderer. -/
def update_slices (s : ViewerState) : ViewerState :=
  match s.image_data with
  | none => s
  | some _ =>
    let axial := s.slider_axial
    let renAfterRemove :=
      match s.current_axial_slice with
      | none => s.renderer2d_axial
      | some p =>
        removeContours s.renderer2d_axial (storeGet s.axial_contours_per_slice (some p))
    let renAfterAdd :=
      addContours renAfterRemove (storeGet s.axial_contours_per_slice (some axial))
    { s with
      current_axial_slice := some axial
      renderer2d_axial := renAfterAdd }

/-- VTIViewer.clear_current_contour of main.py (lines 745-765): remove
the in-progress 2D and 3D curve actors from their renderers, drop the
session buffers, and, when drawing was active, finish drawing (which
stores nothing because the point buffer was just dropped); finally the
always-empty contour_point_actors_2d list is flushed. -/
def clear_current_contour (s : ViewerState) : ViewerState :=
  let s1 :=
    { s with
      renderer2d_axial := removeActorOpt s.renderer2d_axial s.current_contour_actor_2d
      renderer_3d := removeActorOpt s.renderer_3d s.current_contour_actor_3d
      current_contour_points := none
      current_contour_actor_2d := none
      current_contour_actor_3d := none }
  let s2 := if s1.is_drawing then toggle_drawing false s1 else s1
  { s2 with
    renderer2d_axial := eraseAll s2.renderer2d_axial s2.contour_point_actors_2d
    contour_point_actors_2d := [] }

/-- The body of VTIViewer.add_contour_point in vti_vtp1.py (lines
537-620) once the drawing guard has passed.  Unlike main.py, this
variant bakes the 2D depth bias into the stored point itself: the
appended point is (pos.x, pos.y, contour_z_2d).  The 2D curve splines
the stored (biased) points plus a repeat of the first; the 3D polyline
forces every stored point back to the exact slice z. -/
def vtp1AddPointCore (s : ViewerState) (pts : List Point3) (pos : Point3) : ViewerState :=
  let slice_z := axialSliceZ s
  let z2d := axialContourZ2d s
  let adjusted : Point3 := ⟨pos.x, pos.y, z2d⟩
  let pts' := pts ++ [adjusted]
  let n := pts'.length
  let poly2d :=
    if n < 2 then pts'
    else
      tessellate 200
        (pts' ++
          (match pts'.head? with
           | some h0 => [h0]
           | none => []))
  let base3d := pts'.map (fun r => (⟨r.x, r.y, slice_z⟩ : Point3))
  let poly3d :=
    if 1 < n then
      base3d ++
        (match pts'.head? with
         | some h0 => [(⟨h0.x, h0.y, slice_z⟩ : Point3)]
         | none => [])
    else base3d
  { s with
    current_contour_points := some pts'
    polydata_2d := poly2d
    polydata_3d := poly3d
    current_contour_cubes := s.current_contour_cubes ++ [(s.nextActorId, adjusted)]
    renderer2d_axial :=
      (s.renderer2d_axial ++ [s.nextActorId]) ++
        (match s.current_contour_actor_2d with
         | some a => [a]
         | none => [])
    nextActorId := s.nextActorId + 1 }

/-- VTIViewer.add_contour_point of vti_vtp1.py (lines 534-620): a
no-op unless drawing mode is active and a point buffer exists. -/
def vtp1_add_contour_point (pos : Point3) (s : ViewerState) : ViewerState :=
  match s.is_drawing, s.current_contour_points with
  | true, some pts => vtp1AddPointCore s pts pos
  | _, _ => s

/-! ### Helper lemmas about the curve model -/

theorem lerp_z (p q : Point3) (t : ℚ) : (lerp p q t).z = p.z + t * (q.z - p.z) := rfl

theorem lerp_zero (p q : Point3) : lerp p q 0 = p := by
  cases p
  cases q
  simp [lerp]

theorem lerp_one (p q : Point3) : lerp p q 1 = q := by
  cases p
  cases q
  simp only [lerp, Point3.mk.injEq]
  refine ⟨by ring, by ring, by ring⟩

theorem getD_mem (l : List Point3) (i : ℕ) (d : Point3) (h : i < l.length) :
    l.getD i d ∈ l := by
  induction l generalizing i with
  | nil => simp at h
  | cons a t ih =>
    cases i with
    | zero => simp
    | succ n =>
      simp only [List.getD_cons_succ]
      exact List.mem_cons_of_mem _ (ih n (by simpa using h))

theorem getLast?_eq_getD (a : Point3) (l : List Point3) :
    (a :: l).getLast? = some ((a :: l).getD l.length ⟨0, 0, 0⟩) := by
  induction l generalizing a with
  | nil => rfl
  | cons b t ih =>
    rw [List.getLast?_cons_cons, ih b]
    simp

theorem evalSeg_zero (p q : Point3) (rest : List Point3) :
    evalSeg (p :: q :: rest) 0 = p := by
  simp [evalSeg, lerp_zero]

theorem evalSeg_last (p q : Point3) (rest : List Point3) :
    evalSeg (p :: q :: rest) ((rest.length + 1 : ℕ) : ℚ) =
      (p :: q :: rest).getD (rest.length + 1) ⟨0, 0, 0⟩ := by
  have hk : min (Int.toNat ⌊((rest.length + 1 : ℕ) : ℚ)⌋) ((p :: q :: rest).length - 2) =
      rest.length := by
    rw [Int.floor_natCast]
    simp
  simp only [evalSeg, hk]
  have ht : ((rest.length + 1 : ℕ) : ℚ) - ((rest.length : ℕ) : ℚ) = 1 := by
    push_cast
    ring
  rw [ht, lerp_one]

theorem splineEval_zero (p q : Point3) (rest : List Point3) :
    splineEval (p :: q :: rest) 0 = p := by
  simp [splineEval, evalSeg_zero]

theorem splineEval_one (p q : Point3) (rest : List Point3) :
    splineEval (p :: q :: rest) 1 =
      (p :: q :: rest).getD (rest.length + 1) ⟨0, 0, 0⟩ := by
  have hc : (1 : ℚ) * (((p :: q :: rest).length : ℚ) - 1) = ((rest.length + 1 : ℕ) : ℚ) := by
    simp only [List.length_cons]
    push_cast
    ring
  simp only [splineEval]
  rw [hc, evalSeg_last]

theorem tessellate_head (res : ℕ) (p q : Point3) (rest : List Point3) :
    (tessellate res (p :: q :: rest)).head? = some p := by
  unfold tessellate
  rw [List.range_succ_eq_map]
  simp [splineEval_zero]

theorem tessellate_last (res : ℕ) (hres : res ≠ 0) (p q : Point3) (rest : List Point3) :
    (tessellate res (p :: q :: rest)).getLast? = (p :: q :: rest).getLast? := by
  unfold tessellate
  have hone : ((res : ℚ)) / ((res : ℚ)) = 1 := div_self (by exact_mod_cast hres)
  rw [List.range_succ, List.map_append, List.map_cons, List.map_nil,
    List.getLast?_concat, hone, splineEval_one, getLast?_eq_getD]
  simp

theorem evalSeg_z (z0 : ℚ) (p q : Point3) (rest : List Point3)
    (hz : ∀ r ∈ p :: q :: rest, r.z = z0) (srr : ℚ) :
    (evalSeg (p :: q :: rest) srr).z = z0 := by
  simp only [evalSeg]
  have hk : min (Int.toNat ⌊srr⌋) ((p :: q :: rest).length - 2) <
      (p :: q :: rest).length := by
    simp only [List.length_cons]
    omega
  have hk1 : min (Int.toNat ⌊srr⌋) ((p :: q :: rest).length - 2) + 1 <
      (p :: q :: rest).length := by
    simp only [List.length_cons]
    omega
  have h1 := hz _ (getD_mem _ _ ⟨0, 0, 0⟩ hk)
  have h2 := hz _ (getD_mem _ _ ⟨0, 0, 0⟩ hk1)
  rw [lerp_z, h1, h2]
  ring

theorem splineEval_z (z0 : ℚ) (ctrl : List Point3) (hne : ctrl ≠ [])
    (hz : ∀ r ∈ ctrl, r.z = z0) (u : ℚ) : (splineEval ctrl u).z = z0 := by
  match ctrl, hne with
  | [p], _ =>
    simp only [splineEval]
    exact hz p (by simp)
  | p :: q :: rest, _ =>
    simp only [splineEval]
    exact evalSeg_z z0 p q rest hz _

theorem tessellate_z (z0 : ℚ) (res : ℕ) (ctrl : List Point3) (hne : ctrl ≠ [])
    (hz : ∀ r ∈ ctrl, r.z = z0) : ∀ r ∈ tessellate res ctrl, r.z = z0 := by
  intro r hr
  simp only [tessellate, List.mem_map] at hr
  obtain ⟨i, _, rfl⟩ := hr
  exact splineEval_z z0 ctrl hne hz _

theorem ctrlPoints_z (pts : List Point3) (z : ℚ) :
    ∀ r ∈ ctrlPoints pts z, r.z = z := by
  intro r hr
  simp only [ctrlPoints, List.mem_append, List.mem_map] at hr
  rcases hr with ⟨p, _, rfl⟩ | hr
  · rfl
  · cases hh : pts.head? with
    | none => simp [hh] at hr
    | some p0 =>
      simp [hh] at hr
      rw [hr]

theorem ctrlPoints_cons (h : Point3) (t : List Point3) (z : ℚ) :
    ctrlPoints (h :: t) z =
      (⟨h.x, h.y, z⟩ : Point3) ::
        (t.map (fun p => (⟨p.x, p.y, z⟩ : Point3)) ++ [(⟨h.x, h.y, z⟩ : Point3)]) := by
  simp [ctrlPoints]

/-! ### Helper lemmas about the per-slice contour store -/

theorem storeHasKey_false_get (st : Store) (k : Option ℤ)
    (h : storeHasKey st k = false) : storeGet st k = [] := by
  induction st with
  | nil => rfl
  | cons e rest ih =>
    by_cases he : e.1 = k
    · simp [storeHasKey, he] at h
    · rw [storeGet, if_neg he]
      exact ih (by simpa [storeHasKey, he] using h)

theorem storeGet_map_self (st : Store) (k : Option ℤ) (c : ContourInfo)
    (h : storeHasKey st k = true) :
    storeGet (st.map (fun e => if e.1 = k then (e.1, e.2 ++ [c]) else e)) k =
      storeGet st k ++ [c] := by
  induction st with
  | nil => simp [storeHasKey] at h
  | cons e rest ih =>
    by_cases he : e.1 = k
    · simp [storeGet, he]
    · rw [List.map_cons, if_neg he, storeGet, if_neg he, storeGet, if_neg he]
      exact ih (by simpa [storeHasKey, he] using h)

theorem storeGet_map_other (st : Store) (k k' : Option ℤ) (c : ContourInfo)
    (hk : k' ≠ k) :
    storeGet (st.map (fun e => if e.1 = k then (e.1, e.2 ++ [c]) else e)) k' =
      storeGet st k' := by
  induction st with
  | nil => rfl
  | cons e rest ih =>
    by_cases he : e.1 = k
    · have hne : e.1 ≠ k' := by
        rw [he]
        exact fun hcontra => hk hcontra.symm
      rw [List.map_cons, if_pos he, storeGet, storeGet, if_neg hne, if_neg hne]
      exact ih
    · rw [List.map_cons, if_neg he]
      by_cases he' : e.1 = k'
      · rw [storeGet, if_pos he', storeGet, if_pos he']
      · rw [storeGet, if_neg he', storeGet, if_neg he']
        exact ih

theorem storeGet_append_nonmem (st : Store) (k : Option ℤ) (c : ContourInfo)
    (h : storeHasKey st k = false) :
    storeGet (st ++ [(k, [c])]) k = storeGet st k ++ [c] := by
  induction st with
  | nil => simp [storeGet]
  | cons e rest ih =>
    by_cases he : e.1 = k
    · simp [storeHasKey, he] at h
    · rw [List.cons_append, storeGet, if_neg he, storeGet, if_neg he]
      exact ih (by simpa [storeHasKey, he] using h)

theorem storeGet_append_nonmem_other (st : Store) (k k' : Option ℤ) (c : ContourInfo)
    (hk : k' ≠ k) :
    storeGet (st ++ [(k, [c])]) k' = storeGet st k' := by
  induction st with
  | nil =>
    have : k ≠ k' := fun hcontra => hk hcontra.symm
    simp [storeGet, this]
  | cons e rest ih =>
    by_cases he : e.1 = k'
    · rw [List.cons_append, storeGet, if_pos he, storeGet, if_pos he]
    · rw [List.cons_append, storeGet, if_neg he, storeGet, if_neg he]
      exact ih

theorem storeGet_storeAppend_self (st : Store) (k : Option ℤ) (c : ContourInfo) :
    storeGet (storeAppend st k c) k = storeGet st k ++ [c] := by
  unfold storeAppend
  by_cases h : storeHasKey st k
  · rw [if_pos h]
    exact storeGet_map_self st k c h
  · rw [if_neg h]
    exact storeGet_append_nonmem st k c (by simpa using h)

theorem storeGet_storeAppend_other (st : Store) (k k' : Option ℤ) (c : ContourInfo)
    (hk : k' ≠ k) :
    storeGet (storeAppend st k c) k' = storeGet st k' := by
  unfold storeAppend
  by_cases h : storeHasKey st k
  · rw [if_pos h]
    exact storeGet_map_other st k k' c hk
  · rw [if_neg h]
    exact storeGet_append_nonmem_other st k k' c hk

/-! ### Helper lemmas about renderer add/remove loops -/

theorem eraseAll_append (ren : List ℕ) (xs ys : List ℕ) :
    eraseAll ren (xs ++ ys) = eraseAll (eraseAll ren xs) ys := by
  induction xs generalizing ren with
  | nil => rfl
  | cons a rest ih => rw [List.cons_append, eraseAll, eraseAll, ih]

theorem removeCubes_eq (ren : List ℕ) (cubes : List (ℕ × Point3)) :
    removeCubes ren cubes = eraseAll ren (cubes.map Prod.fst) := by
  induction cubes generalizing ren with
  | nil => rfl
  | cons cb rest ih => rw [removeCubes, List.map_cons, eraseAll, ih]

theorem removeContour_eq (ren : List ℕ) (ci : ContourInfo) :
    removeContour ren ci = eraseAll ren (contourActors ci) := by
  cases h : ci.actor2d with
  | none =>
    rw [removeContour, h, contourActors, h]
    simp only [List.nil_append]
    exact removeCubes_eq _ _
  | some a =>
    rw [removeContour, h, contourActors, h, eraseAll_append]
    rw [removeCubes_eq]
    rfl

theorem removeContours_eq (ren : List ℕ) (l : List ContourInfo) :
    removeContours ren l = eraseAll ren (allActors l) := by
  induction l generalizing ren with
  | nil => rfl
  | cons ci rest ih =>
    rw [removeContours, allActors, eraseAll_append, ← removeContour_eq, ih]

theorem addCubes_eq (ren : List ℕ) (cubes : List (ℕ × Point3)) :
    addCubes ren cubes = ren ++ cubes.map Prod.fst := by
  induction cubes generalizing ren with
  | nil => simp [addCubes]
  | cons cb rest ih =>
    rw [addCubes, List.map_cons, ih, List.append_assoc, List.singleton_append]

theorem addContour_eq (ren : List ℕ) (ci : ContourInfo) :
    addContour ren ci = ren ++ contourActors ci := by
  cases h : ci.actor2d with
  | none =>
    rw [addContour, h, contourActors, h]
    simp only [List.nil_append]
    exact addCubes_eq _ _
  | some a =>
    rw [addContour, h, contourActors, h, addCubes_eq, List.append_assoc,
      List.singleton_append]

theorem addContours_eq (ren : List ℕ) (l : List ContourInfo) :
    addContours ren l = ren ++ allActors l := by
  induction l generalizing ren with
  | nil => simp [addContours, allActors]
  | cons ci rest ih =>
    rw [addContours, allActors, addContour_eq, ih, List.append_assoc]

theorem not_mem_eraseAll_of_not_mem (ren as : List ℕ) (a : ℕ) (h : a ∉ ren) :
    a ∉ eraseAll ren as := by
  induction as generalizing ren with
  | nil => exact h
  | cons b rest ih =>
    rw [eraseAll]
    exact ih _ (fun hmem => h (List.mem_of_mem_erase hmem))

theorem not_mem_eraseAll (ren as : List ℕ) (a : ℕ) (hnd : ren.Nodup) (ha : a ∈ as) :
    a ∉ eraseAll ren as := by
  induction as generalizing ren with
  | nil => simp at ha
  | cons b rest ih =>
    rw [eraseAll]
    rcases List.mem_cons.mp ha with hab | ha'
    · subst hab
      refine not_mem_eraseAll_of_not_mem _ _ _ (fun hmem => ?_)
      exact ((hnd.mem_erase_iff.mp hmem).1) rfl
    · exact ih (ren.erase b) (hnd.erase b) ha'

/-! ### Invariance lemmas about the session operations -/

/-- A whole drawing session: start, then add each picked point in
receipt order (the event sequence of the tool while the draw button is
active). -/
def addPoints (s : ViewerState) (ps : List Point3) : ViewerState :=
  ps.foldl (fun t qq => add_contour_point qq t) s

theorem add_contour_point_store (qq : Point3) (t : ViewerState) :
    (add_contour_point qq t).axial_contours_per_slice = t.axial_contours_per_slice := by
  cases hd : t.is_drawing <;> cases hp : t.current_contour_points <;>
    simp [add_contour_point, addPointCore, hd, hp]

theorem add_contour_point_drawing (qq : Point3) (t : ViewerState) :
    (add_contour_point qq t).is_drawing = t.is_drawing := by
  cases hd : t.is_drawing <;> cases hp : t.current_contour_points <;>
    simp [add_contour_point, addPointCore, hd, hp]

theorem addPoints_store (s : ViewerState) (ps : List Point3) :
    (addPoints s ps).axial_contours_per_slice = s.axial_contours_per_slice := by
  induction ps generalizing s with
  | nil => rfl
  | cons qq rest ih =>
    rw [addPoints, List.foldl_cons, ← addPoints, ih, add_contour_point_store]

theorem addPoints_drawing (s : ViewerState) (ps : List Point3) :
    (addPoints s ps).is_drawing = s.is_drawing := by
  induction ps generalizing s with
  | nil => rfl
  | cons qq rest ih =>
    rw [addPoints, List.foldl_cons, ← addPoints, ih, add_contour_point_drawing]

/-! ### Concrete sample data used by witnesses and counterexamples -/

/-- A sample loaded volume: origin (0,0,0), spacing (1,1,2), extent
0..9 on every axis. -/
def sampleImg : ImageData := ⟨⟨0, 0, 0⟩, ⟨1, 1, 2⟩, ⟨0, 0, 0⟩, ⟨9, 9, 9⟩⟩

/-- A sample viewer state with the sample volume loaded, axial slider
at slice 2, and no contour session active. -/
def idleState : ViewerState :=
  { image_data := some sampleImg
    is_drawing := false
    slider_axial := 2
    slider_coronal := 0
    slider_sagittal := 0
    current_contour_points := none
    current_contour_actor_2d := none
    current_contour_actor_3d := none
    current_contour_cubes := []
    axial_contours_per_slice := []
    current_axial_slice := some 2
    renderer2d_axial := []
    renderer_3d := []
    polydata_2d := []
    polydata_3d := []
    contour_point_actors_2d := []
    nextActorId := 0 }

/-- The sample state with an active drawing session holding no points
yet. -/
def drawState : ViewerState :=
  { idleState with is_drawing := true, current_contour_points := some [] }

/-- The sample state with an active drawing session holding one
point. -/
def drawState1 : ViewerState :=
  { idleState with
    is_drawing := true
    current_contour_points := some [(⟨1, 2, 4⟩ : Point3)] }

/-- A finalized sample contour stored under slice 2 (curve actor 10,
marker cube 12). -/
def sampleContourP : ContourInfo :=
  ⟨[(⟨0, 0, 4⟩ : Point3)], some 10, some 11, [(12, (⟨0, 0, 44⟩ : Point3))]⟩

/-- A finalized sample contour stored under slice 3 (curve actor 20,
marker cube 22). -/
def sampleContourN : ContourInfo :=
  ⟨[(⟨1, 1, 6⟩ : Point3)], some 20, some 21, [(22, (⟨1, 1, 46⟩ : Point3))]⟩

/-- The one-point drawing state with a stale current_axial_slice (the
slider has moved to 2 since the last slice update recorded slice 0). -/
def staleSliceState : ViewerState :=
  { drawState1 with current_axial_slice := some 0 }

/-- A sample state about to move the axial slice from 2 to 3, with one
finalized contour on each of those slices and the slice-2 visuals in
the 2D renderer. -/
def sliceChangeState : ViewerState :=
  { idleState with
    axial_contours_per_slice := [(some 2, [sampleContourP]), (some 3, [sampleContourN])]
    current_axial_slice := some 2
    slider_axial := 3
    renderer2d_axial := [10, 12]
    renderer_3d := [11, 21] }

/-! ### Bridging lemmas: tessellation endpoints and addPointCore fields -/

theorem tessellate_head_of_len (res : ℕ) (ctrl : List Point3)
    (h2 : 2 ≤ ctrl.length) : (tessellate res ctrl).head? = ctrl.head? := by
  rcases ctrl with _ | ⟨p, _ | ⟨q, rest⟩⟩
  · simp at h2
  · simp at h2
  · rw [tessellate_head]
    rfl

theorem tessellate_last_of_len (res : ℕ) (hres : res ≠ 0) (ctrl : List Point3)
    (h2 : 2 ≤ ctrl.length) : (tessellate res ctrl).getLast? = ctrl.getLast? := by
  rcases ctrl with _ | ⟨p, _ | ⟨q, rest⟩⟩
  · simp at h2
  · simp at h2
  · exact tessellate_last res hres p q rest

theorem ctrlPoints_head (h0 : Point3) (t : List Point3) (z : ℚ) :
    (ctrlPoints (h0 :: t) z).head? = some ⟨h0.x, h0.y, z⟩ := by
  rw [ctrlPoints_cons]
  rfl

theorem ctrlPoints_last (h0 : Point3) (t : List Point3) (z : ℚ) :
    (ctrlPoints (h0 :: t) z).getLast? = some ⟨h0.x, h0.y, z⟩ := by
  rw [ctrlPoints_cons, ← List.cons_append, List.getLast?_concat]

theorem ctrlPoints_len (h0 : Point3) (t : List Point3) (z : ℚ) :
    2 ≤ (ctrlPoints (h0 :: t) z).length := by
  rw [ctrlPoints_cons]
  simp

theorem ctrlPoints_ne_nil (h0 : Point3) (t : List Point3) (z : ℚ) :
    ctrlPoints (h0 :: t) z ≠ [] := by
  rw [ctrlPoints_cons]
  exact List.cons_ne_nil _ _

theorem addPointCore_polydata_2d (s : ViewerState) (pts : List Point3) (pos : Point3)
    (h2 : 2 ≤ (pts ++ [pos]).length) :
    (addPointCore s pts pos).polydata_2d =
      tessellate 200 (ctrlPoints (pts ++ [pos]) (axialContourZ2d s)) := by
  simp only [addPointCore]
  rw [if_pos h2]

theorem addPointCore_polydata_3d (s : ViewerState) (pts : List Point3) (pos : Point3)
    (h2 : 2 ≤ (pts ++ [pos]).length) :
    (addPointCore s pts pos).polydata_3d =
      tessellate 200 (ctrlPoints (pts ++ [pos]) (axialSliceZ s)) := by
  simp only [addPointCore]
  rw [if_pos h2]

theorem addPointCore_polydata_2d_single (s : ViewerState) (pos : Point3) :
    (addPointCore s [] pos).polydata_2d = [⟨pos.x, pos.y, axialContourZ2d s⟩] := by
  simp [addPointCore]

theorem addPointCore_polydata_3d_single (s : ViewerState) (pos : Point3) :
    (addPointCore s [] pos).polydata_3d = [⟨pos.x, pos.y, axialSliceZ s⟩] := by
  simp [addPointCore]

/-! ### Claim theorems -/

/-- C1: with a volume loaded and drawing mode active, the point that
the axial pick handler passes to add_contour_point keeps the picked x
and y but has its z forced to origin[2] + axialSlice * spacing[2],
regardless of the picked z. -/
theorem c1_pick_pinned_to_slice (s : ViewerState) (img : ImageData) (w : Point3)
    (hd : s.is_drawing = true) (himg : s.image_data = some img) :
    (pickedPoint s w).x = w.x ∧ (pickedPoint s w).y = w.y ∧
    (pickedPoint s w).z = worldCoord img 2 s.slider_axial ∧
    on_left_button_press s w = add_contour_point (pickedPoint s w) s := by
  refine ⟨?_, ?_, ?_, ?_⟩ <;>
    simp [pickedPoint, himg, worldCoord, on_left_button_press, hd]

theorem c1_pick_pinned_to_slice_witness :
    (drawState.is_drawing = true ∧ drawState.image_data = some sampleImg) ∧
    ((pickedPoint drawState ⟨7, 8, 9⟩).x = (⟨7, 8, 9⟩ : Point3).x ∧
     (pickedPoint drawState ⟨7, 8, 9⟩).y = (⟨7, 8, 9⟩ : Point3).y ∧
     (pickedPoint drawState ⟨7, 8, 9⟩).z = worldCoord sampleImg 2 drawState.slider_axial ∧
     on_left_button_press drawState ⟨7, 8, 9⟩ =
       add_contour_point (pickedPoint drawState ⟨7, 8, 9⟩) drawState) :=
  ⟨⟨rfl, rfl⟩, c1_pick_pinned_to_slice drawState sampleImg ⟨7, 8, 9⟩ rfl rfl⟩

/-- C2 (amended): in main.py the point appended to the session buffer
is the picked point unmodified, and the depth bias appears only in the
marker center (and the curve2D control vertices); in the vti_vtp1.py
variant the appended point instead carries the biased out-of-plane
coordinate slice_z + spacing[2] * 20. -/
theorem c2_stored_point_by_variant (s : ViewerState) (pts : List Point3) (pos : Point3)
    (hd : s.is_drawing = true) (hpts : s.current_contour_points = some pts) :
    (add_contour_point pos s).current_contour_points = some (pts ++ [pos]) ∧
    (add_contour_point pos s).current_contour_cubes =
      s.current_contour_cubes ++
        [(s.nextActorId, (⟨pos.x, pos.y, axialContourZ2d s⟩ : Point3))] ∧
    (vtp1_add_contour_point pos s).current_contour_points =
      some (pts ++ [(⟨pos.x, pos.y, axialContourZ2d s⟩ : Point3)]) := by
  refine ⟨?_, ?_, ?_⟩ <;>
    simp [add_contour_point, vtp1_add_contour_point, addPointCore, vtp1AddPointCore,
      hd, hpts]

theorem c2_stored_point_by_variant_witness :
    (drawState.is_drawing = true ∧ drawState.current_contour_points = some []) ∧
    ((add_contour_point ⟨5, 5, 4⟩ drawState).current_contour_points =
       some ([] ++ [(⟨5, 5, 4⟩ : Point3)]) ∧
     (add_contour_point ⟨5, 5, 4⟩ drawState).current_contour_cubes =
       drawState.current_contour_cubes ++
         [(drawState.nextActorId,
           (⟨(⟨5, 5, 4⟩ : Point3).x, (⟨5, 5, 4⟩ : Point3).y,
             axialContourZ2d drawState⟩ : Point3))] ∧
     (vtp1_add_contour_point ⟨5, 5, 4⟩ drawState).current_contour_points =
       some ([] ++ [(⟨(⟨5, 5, 4⟩ : Point3).x, (⟨5, 5, 4⟩ : Point3).y,
             axialContourZ2d drawState⟩ : Point3)])) :=
  ⟨⟨rfl, rfl⟩, c2_stored_point_by_variant drawState [] ⟨5, 5, 4⟩ rfl rfl⟩

/-- C2 counterexample: in the vti_vtp1.py variant, adding the picked
point (5, 5, 4) on slice 2 of a volume with origin 0 and spacing
(1, 1, 2) stores (5, 5, 44), not the picked point: the claim that the
appended stored point always equals the picked point is false for this
add-point operation. -/
theorem c2_stored_point_counterexample :
    (vtp1_add_contour_point ⟨5, 5, 4⟩ drawState).current_contour_points ≠
      some [(⟨5, 5, 4⟩ : Point3)] := by
  have hv : (vtp1_add_contour_point ⟨5, 5, 4⟩ drawState).current_contour_points =
      some [(⟨5, 5, 44⟩ : Point3)] := by
    simp [vtp1_add_contour_point, vtp1AddPointCore, drawState, idleState, sampleImg,
      axialContourZ2d, axialSliceZ, spacingOf, originOf, Vec3.get]
    norm_num
  rw [hv]
  intro hcontra
  simp only [Option.some.injEq, List.cons.injEq, Point3.mk.injEq] at hcontra
  have h44 : (44 : ℚ) = 4 := hcontra.1.2.2
  norm_num at h44

/-- C7: finishing a drawing session whose point buffer is empty stores
no record under any slice, resets the session to idle, and clears the
point buffer. -/
theorem c7_empty_finish_no_record (s : ViewerState)
    (h : s.current_contour_points = some []) :
    (toggle_drawing false s).axial_contours_per_slice = s.axial_contours_per_slice ∧
    (toggle_drawing false s).is_drawing = false ∧
    (toggle_drawing false s).current_contour_points = none := by
  refine ⟨?_, ?_, ?_⟩ <;> simp [toggle_drawing, h]

theorem c7_empty_finish_no_record_witness :
    (drawState.current_contour_points = some []) ∧
    ((toggle_drawing false drawState).axial_contours_per_slice =
       drawState.axial_contours_per_slice ∧
     (toggle_drawing false drawState).is_drawing = false ∧
     (toggle_drawing false drawState).current_contour_points = none) :=
  ⟨rfl, c7_empty_finish_no_record drawState rfl⟩

/-- C10: add_contour_point called while drawing mode is off, or while
no session point buffer exists, leaves the whole viewer state
unchanged. -/
theorem c10_guarded_add_is_noop (pos : Point3) (s : ViewerState)
    (h : s.is_drawing = false ∨ s.current_contour_points = none) :
    add_contour_point pos s = s := by
  rcases h with h | h
  · cases hp : s.current_contour_points <;> simp [add_contour_point, h, hp]
  · cases hb : s.is_drawing <;> simp [add_contour_point, h, hb]

theorem c10_guarded_add_is_noop_witness :
    (idleState.is_drawing = false ∨ idleState.current_contour_points = none) ∧
    add_contour_point ⟨1, 1, 1⟩ idleState = idleState :=
  ⟨Or.inl rfl, c10_guarded_add_is_noop ⟨1, 1, 1⟩ idleState (Or.inl rfl)⟩

/-- C5: when the session already holds at least one point, the curves
regenerated by the add-point operation are closed: the first
tessellated vertex of curve2D equals its last (at the biased plane z),
and likewise for curve3D (at the exact plane z), both being the first
stored point repeated as the final control point. -/
theorem c5_regenerated_curves_closed (s : ViewerState) (pts : List Point3)
    (pos : Point3) (hd : s.is_drawing = true)
    (hpts : s.current_contour_points = some pts) (hne : pts ≠ []) :
    ∃ p0 : Point3,
      (pts ++ [pos]).head? = some p0 ∧
      (add_contour_point pos s).polydata_2d.head? =
        some ⟨p0.x, p0.y, axialContourZ2d s⟩ ∧
      (add_contour_point pos s).polydata_2d.getLast? =
        some ⟨p0.x, p0.y, axialContourZ2d s⟩ ∧
      (add_contour_point pos s).polydata_3d.head? =
        some ⟨p0.x, p0.y, axialSliceZ s⟩ ∧
      (add_contour_point pos s).polydata_3d.getLast? =
        some ⟨p0.x, p0.y, axialSliceZ s⟩ := by
  rcases pts with _ | ⟨h0, t⟩
  · exact absurd rfl hne
  · have ha : add_contour_point pos s = addPointCore s (h0 :: t) pos := by
      simp [add_contour_point, hd, hpts]
    have h2 : 2 ≤ ((h0 :: t) ++ [pos]).length := by simp
    have hcons : (h0 :: t) ++ [pos] = h0 :: (t ++ [pos]) := by simp
    have hcl2 : 2 ≤ (ctrlPoints ((h0 :: t) ++ [pos]) (axialContourZ2d s)).length := by
      rw [hcons]
      exact ctrlPoints_len _ _ _
    have hcl3 : 2 ≤ (ctrlPoints ((h0 :: t) ++ [pos]) (axialSliceZ s)).length := by
      rw [hcons]
      exact ctrlPoints_len _ _ _
    refine ⟨h0, by simp, ?_, ?_, ?_, ?_⟩
    · rw [ha, addPointCore_polydata_2d s _ _ h2,
        tessellate_head_of_len 200 _ hcl2, hcons, ctrlPoints_head]
    · rw [ha, addPointCore_polydata_2d s _ _ h2,
        tessellate_last_of_len 200 (by norm_num) _ hcl2, hcons, ctrlPoints_last]
    · rw [ha, addPointCore_polydata_3d s _ _ h2,
        tessellate_head_of_len 200 _ hcl3, hcons, ctrlPoints_head]
    · rw [ha, addPointCore_polydata_3d s _ _ h2,
        tessellate_last_of_len 200 (by norm_num) _ hcl3, hcons, ctrlPoints_last]

theorem c5_regenerated_curves_closed_witness :
    (drawState1.is_drawing = true ∧
     drawState1.current_contour_points = some [(⟨1, 2, 4⟩ : Point3)] ∧
     [(⟨1, 2, 4⟩ : Point3)] ≠ []) ∧
    (∃ p0 : Point3,
      ([(⟨1, 2, 4⟩ : Point3)] ++ [(⟨3, 0, 4⟩ : Point3)]).head? = some p0 ∧
      (add_contour_point ⟨3, 0, 4⟩ drawState1).polydata_2d.head? =
        some ⟨p0.x, p0.y, axialContourZ2d drawState1⟩ ∧
      (add_contour_point ⟨3, 0, 4⟩ drawState1).polydata_2d.getLast? =
        some ⟨p0.x, p0.y, axialContourZ2d drawState1⟩ ∧
      (add_contour_point ⟨3, 0, 4⟩ drawState1).polydata_3d.head? =
        some ⟨p0.x, p0.y, axialSliceZ drawState1⟩ ∧
      (add_contour_point ⟨3, 0, 4⟩ drawState1).polydata_3d.getLast? =
        some ⟨p0.x, p0.y, axialSliceZ drawState1⟩) :=
  ⟨⟨rfl, rfl, List.cons_ne_nil _ _⟩,
   c5_regenerated_curves_closed drawState1 [(⟨1, 2, 4⟩ : Point3)] ⟨3, 0, 4⟩ rfl rfl
     (List.cons_ne_nil _ _)⟩

/-- C8: after an add-point operation with a loaded volume, every
vertex of the regenerated curve3D lies at the exact plane coordinate
origin[2] + slider * spacing[2], and every vertex of the regenerated
curve2D lies at that coordinate plus the bias spacing[2] * 20 — the z
components of the individually stored points are discarded at
curve-regeneration time. -/
theorem c8_regenerated_curves_planar (s : ViewerState) (img : ImageData)
    (pts : List Point3) (pos : Point3) (hd : s.is_drawing = true)
    (himg : s.image_data = some img)
    (hpts : s.current_contour_points = some pts) :
    axialSliceZ s = worldCoord img 2 s.slider_axial ∧
    (∀ r ∈ (add_contour_point pos s).polydata_3d, r.z = axialSliceZ s) ∧
    (∀ r ∈ (add_contour_point pos s).polydata_2d,
      r.z = axialSliceZ s + img.spacing.get 2 * 20) := by
  have hz3 : axialSliceZ s = worldCoord img 2 s.slider_axial := by
    simp [axialSliceZ, originOf, spacingOf, himg, worldCoord]
  have hz2 : axialContourZ2d s = axialSliceZ s + img.spacing.get 2 * 20 := by
    simp [axialContourZ2d, spacingOf, himg]
  have ha : add_contour_point pos s = addPointCore s pts pos := by
    simp [add_contour_point, hd, hpts]
  refine ⟨hz3, ?_, ?_⟩
  · rcases pts with _ | ⟨h0, t⟩
    · rw [ha, addPointCore_polydata_3d_single]
      intro r hr
      simp at hr
      rw [hr]
    · have h2 : 2 ≤ ((h0 :: t) ++ [pos]).length := by simp
      rw [ha, addPointCore_polydata_3d s _ _ h2]
      intro r hr
      refine tessellate_z (axialSliceZ s) 200 _ ?_ (ctrlPoints_z _ _) r hr
      rw [List.cons_append]
      exact ctrlPoints_ne_nil _ _ _
  · rcases pts with _ | ⟨h0, t⟩
    · rw [ha, addPointCore_polydata_2d_single]
      intro r hr
      simp at hr
      rw [hr, ← hz2]
    · have h2 : 2 ≤ ((h0 :: t) ++ [pos]).length := by simp
      rw [ha, addPointCore_polydata_2d s _ _ h2]
      intro r hr
      rw [← hz2]
      refine tessellate_z (axialContourZ2d s) 200 _ ?_ (ctrlPoints_z _ _) r hr
      rw [List.cons_append]
      exact ctrlPoints_ne_nil _ _ _

theorem c8_regenerated_curves_planar_witness :
    (drawState1.is_drawing = true ∧ drawState1.image_data = some sampleImg ∧
     drawState1.current_contour_points = some [(⟨1, 2, 4⟩ : Point3)]) ∧
    (axialSliceZ drawState1 = worldCoord sampleImg 2 drawState1.slider_axial ∧
     (∀ r ∈ (add_contour_point ⟨3, 0, 7⟩ drawState1).polydata_3d,
        r.z = axialSliceZ drawState1) ∧
     (∀ r ∈ (add_contour_point ⟨3, 0, 7⟩ drawState1).polydata_2d,
        r.z = axialSliceZ drawState1 + sampleImg.spacing.get 2 * 20)) := by
  constructor
  · exact ⟨rfl, rfl, rfl⟩
  · exact c8_regenerated_curves_planar drawState1 sampleImg [(⟨1, 2, 4⟩ : Point3)]
      ⟨3, 0, 7⟩ rfl rfl rfl

/-- C9: finishing a non-empty session appends its record to the store
under the slider value recorded by the most recent update_slices call
(update_slices always sets current_axial_slice to the axial slider),
leaving every other slice key untouched — regardless of the slice at
which the session started or points were picked. -/
theorem c9_finalize_under_latest_slice (s : ViewerState) (img : ImageData)
    (pts : List Point3) (himg : s.image_data = some img)
    (hpts : s.current_contour_points = some pts) (hne : pts ≠ []) :
    (update_slices s).current_axial_slice = some s.slider_axial ∧
    storeGet (toggle_drawing false (update_slices s)).axial_contours_per_slice
        (some s.slider_axial) =
      storeGet s.axial_contours_per_slice (some s.slider_axial) ++
        [⟨pts, s.current_contour_actor_2d, s.current_contour_actor_3d,
          s.current_contour_cubes⟩] ∧
    (∀ k, k ≠ some s.slider_axial →
      storeGet (toggle_drawing false (update_slices s)).axial_contours_per_slice k =
        storeGet s.axial_contours_per_slice k) := by
  have h1 : (update_slices s).current_axial_slice = some s.slider_axial := by
    simp [update_slices, himg]
  have h2 : (update_slices s).axial_contours_per_slice = s.axial_contours_per_slice := by
    simp [update_slices, himg]
  have h3 : (update_slices s).current_contour_points = some pts := by
    simp [update_slices, himg, hpts]
  have h4 : (update_slices s).current_contour_actor_2d = s.current_contour_actor_2d := by
    simp [update_slices, himg]
  have h5 : (update_slices s).current_contour_actor_3d = s.current_contour_actor_3d := by
    simp [update_slices, himg]
  have h6 : (update_slices s).current_contour_cubes = s.current_contour_cubes := by
    simp [update_slices, himg]
  have hlen : 0 < pts.length := List.length_pos.mpr hne
  have ht : (toggle_drawing false (update_slices s)).axial_contours_per_slice =
      storeAppend s.axial_contours_per_slice (some s.slider_axial)
        ⟨pts, s.current_contour_actor_2d, s.current_contour_actor_3d,
          s.current_contour_cubes⟩ := by
    simp [toggle_drawing, h1, h2, h3, h4, h5, h6, hlen]
  refine ⟨h1, ?_, ?_⟩
  · rw [ht, storeGet_storeAppend_self]
  · intro k hk
    rw [ht, storeGet_storeAppend_other _ _ _ _ hk]

theorem c9_finalize_under_latest_slice_witness :
    (staleSliceState.image_data = some sampleImg ∧
     staleSliceState.current_contour_points = some [(⟨1, 2, 4⟩ : Point3)] ∧
     [(⟨1, 2, 4⟩ : Point3)] ≠ [] ∧
     staleSliceState.current_axial_slice ≠ some staleSliceState.slider_axial) ∧
    ((update_slices staleSliceState).current_axial_slice =
       some staleSliceState.slider_axial ∧
     storeGet (toggle_drawing false (update_slices staleSliceState)).axial_contours_per_slice
         (some staleSliceState.slider_axial) =
       storeGet staleSliceState.axial_contours_per_slice
           (some staleSliceState.slider_axial) ++
         [⟨[(⟨1, 2, 4⟩ : Point3)], staleSliceState.current_contour_actor_2d,
           staleSliceState.current_contour_actor_3d,
           staleSliceState.current_contour_cubes⟩] ∧
     (∀ k, k ≠ some staleSliceState.slider_axial →
       storeGet (toggle_drawing false (update_slices staleSliceState)).axial_contours_per_slice k =
         storeGet staleSliceState.axial_contours_per_slice k)) :=
  ⟨⟨rfl, rfl, List.cons_ne_nil _ _, by decide⟩,
   c9_finalize_under_latest_slice staleSliceState sampleImg [(⟨1, 2, 4⟩ : Point3)]
     rfl rfl (List.cons_ne_nil _ _)⟩

theorem clear_while_drawing (t : ViewerState) (hd : t.is_drawing = true) :
    (clear_current_contour t).axial_contours_per_slice = t.axial_contours_per_slice ∧
    (clear_current_contour t).is_drawing = false ∧
    (clear_current_contour t).current_contour_points = none := by
  refine ⟨?_, ?_, ?_⟩ <;> simp [clear_current_contour, toggle_drawing, hd]

/-- C6: cancelling a drawing session — started from any state, with
any number of points added, including zero — leaves the per-slice
contour store exactly as it was before the session started, and resets
the session to idle with no current points. -/
theorem c6_cancel_preserves_store (s : ViewerState) (ps : List Point3) :
    (clear_current_contour (addPoints (toggle_drawing true s) ps)).axial_contours_per_slice =
      s.axial_contours_per_slice ∧
    (clear_current_contour (addPoints (toggle_drawing true s) ps)).is_drawing = false ∧
    (clear_current_contour (addPoints (toggle_drawing true s) ps)).current_contour_points =
      none := by
  have h1 : (toggle_drawing true s).axial_contours_per_slice =
      s.axial_contours_per_slice := by
    simp [toggle_drawing]
  have hd1 : (toggle_drawing true s).is_drawing = true := by
    simp [toggle_drawing]
  have h2 : (addPoints (toggle_drawing true s) ps).axial_contours_per_slice =
      s.axial_contours_per_slice := by
    rw [addPoints_store, h1]
  have hd2 : (addPoints (toggle_drawing true s) ps).is_drawing = true := by
    rw [addPoints_drawing, hd1]
  obtain ⟨ha, hb, hc⟩ := clear_while_drawing (addPoints (toggle_drawing true s) ps) hd2
  exact ⟨ha.trans h2, hb, hc⟩

/-- C3: changing the active axial slice from p to the slider value n,
with p different from n, removes from the 2D renderer the curve actor
and marker cubes of every contour stored under p, adds those of every
contour stored under n, and leaves the 3D renderer untouched.  The
uniqueness hypotheses encode VTK object identity: each actor is a
distinct object, listed at most once in the renderer. -/
theorem c3_slice_change_visibility (s : ViewerState) (img : ImageData) (p : ℤ)
    (himg : s.image_data = some img)
    (hprev : s.current_axial_slice = some p)
    (hpn : p ≠ s.slider_axial)
    (hnd : s.renderer2d_axial.Nodup)
    (hdisj : ∀ a ∈ sliceActors s.axial_contours_per_slice (some p),
        a ∉ sliceActors s.axial_contours_per_slice (some s.slider_axial)) :
    (∀ a ∈ sliceActors s.axial_contours_per_slice (some p),
        a ∉ (update_slices s).renderer2d_axial) ∧
    (∀ a ∈ sliceActors s.axial_contours_per_slice (some s.slider_axial),
        a ∈ (update_slices s).renderer2d_axial) ∧
    (update_slices s).renderer_3d = s.renderer_3d := by
  have hren : (update_slices s).renderer2d_axial =
      eraseAll s.renderer2d_axial (sliceActors s.axial_contours_per_slice (some p)) ++
        sliceActors s.axial_contours_per_slice (some s.slider_axial) := by
    simp only [update_slices, himg, hprev]
    rw [removeContours_eq, addContours_eq]
    rfl
  have h3d : (update_slices s).renderer_3d = s.renderer_3d := by
    simp [update_slices, himg]
  refine ⟨?_, ?_, h3d⟩
  · intro a ha hmem
    rw [hren] at hmem
    rcases List.mem_append.mp hmem with hm | hm
    · exact not_mem_eraseAll _ _ a hnd ha hm
    · exact hdisj a ha hm
  · intro a ha
    rw [hren]
    exact List.mem_append_right _ ha

theorem c3_slice_change_visibility_witness :
    (sliceChangeState.image_data = some sampleImg ∧
     sliceChangeState.current_axial_slice = some 2 ∧
     (2 : ℤ) ≠ sliceChangeState.slider_axial ∧
     sliceChangeState.renderer2d_axial.Nodup ∧
     (∀ a ∈ sliceActors sliceChangeState.axial_contours_per_slice (some 2),
        a ∉ sliceActors sliceChangeState.axial_contours_per_slice
              (some sliceChangeState.slider_axial))) ∧
    ((∀ a ∈ sliceActors sliceChangeState.axial_contours_per_slice (some 2),
        a ∉ (update_slices sliceChangeState).renderer2d_axial) ∧
     (∀ a ∈ sliceActors sliceChangeState.axial_contours_per_slice
          (some sliceChangeState.slider_axial),
        a ∈ (update_slices sliceChangeState).renderer2d_axial) ∧
     (update_slices sliceChangeState).renderer_3d = sliceChangeState.renderer_3d) :=
  ⟨⟨rfl, rfl, by decide, by decide, by decide⟩,
   c3_slice_change_visibility sliceChangeState sampleImg 2 rfl rfl (by decide)
     (by decide) (by decide)⟩

/-- C4: for a fixed view axis over a loaded volume, the reslice-axes
matrices for two slice indices i and j within the extent agree on
every entry except the out-of-plane translation; the two in-plane
translation entries equal the volume center, and the out-of-plane
translation equals origin[a] + index * spacing[a]. -/
theorem c4_reslice_translation_only (img : ImageData) (a : Axis) (i j : ℤ)
    (hi : img.extLo.get (axisIdx a) ≤ i ∧ i ≤ img.extHi.get (axisIdx a))
    (hj : img.extLo.get (axisIdx a) ≤ j ∧ j ≤ img.extHi.get (axisIdx a))
    (hij : i ≠ j) :
    set_slice (some img) a i = some (resliceAxes img a i) ∧
    (∀ r c : Fin 4, ¬(r = outRow a ∧ c = 3) →
        resliceAxes img a i r c = resliceAxes img a j r c) ∧
    (∀ r : Fin 4, r ≠ outRow a → r ≠ 3 →
        resliceAxes img a i r 3 = centerCoord img (fin3of r)) ∧
    resliceAxes img a i (outRow a) 3 = worldCoord img (axisIdx a) i ∧
    resliceAxes img a j (outRow a) 3 = worldCoord img (axisIdx a) j := by
  refine ⟨rfl, ?_, ?_, ?_, ?_⟩
  · intro r c h
    cases a <;> fin_cases r <;> fin_cases c <;>
      simp_all [resliceAxes, setElem, mat4Of, rowOf, outRow]
  · intro r h1 h2
    cases a <;> fin_cases r <;>
      simp_all [resliceAxes, setElem, mat4Of, rowOf, outRow, fin3of]
  · cases a <;>
      simp [resliceAxes, setElem, mat4Of, rowOf, outRow, worldCoord, axisIdx]
  · cases a <;>
      simp [resliceAxes, setElem, mat4Of, rowOf, outRow, worldCoord, axisIdx]

theorem c4_reslice_translation_only_witness :
    (sampleImg.extLo.get (axisIdx Axis.z) ≤ (1 : ℤ) ∧
       (1 : ℤ) ≤ sampleImg.extHi.get (axisIdx Axis.z)) ∧
    (sampleImg.extLo.get (axisIdx Axis.z) ≤ (2 : ℤ) ∧
       (2 : ℤ) ≤ sampleImg.extHi.get (axisIdx Axis.z)) ∧
    (1 : ℤ) ≠ 2 ∧
    (set_slice (some sampleImg) Axis.z 1 = some (resliceAxes sampleImg Axis.z 1) ∧
     (∀ r c : Fin 4, ¬(r = outRow Axis.z ∧ c = 3) →
         resliceAxes sampleImg Axis.z 1 r c = resliceAxes sampleImg Axis.z 2 r c) ∧
     (∀ r : Fin 4, r ≠ outRow Axis.z → r ≠ 3 →
         resliceAxes sampleImg Axis.z 1 r 3 = centerCoord sampleImg (fin3of r)) ∧
     resliceAxes sampleImg Axis.z 1 (outRow Axis.z) 3 =
       worldCoord sampleImg (axisIdx Axis.z) 1 ∧
     resliceAxes sampleImg Axis.z 2 (outRow Axis.z) 3 =
       worldCoord sampleImg (axisIdx Axis.z) 2) :=
  ⟨by decide, by decide, by decide,
   c4_reslice_translation_only sampleImg Axis.z 1 2 (by decide) (by decide)
     (by decide)⟩

end SegDemo
